import Mathlib

/-!
# Verification of the dual-account finance ledger

A shallow embedding of the balance-recalculation and interest-accrual core of
the `xRained/finance` repository (`finance_tracker.py`, `app.py`), together
with proofs settling the specification's claims about it.

Modelling conventions:
* Python floats are modelled as exact rationals (`ℚ`).  `round(x, 2)` is
  modelled as round-to-nearest-centavo with ties to even, on the exact value.
* Calendar dates are modelled as day ordinals (`ℕ`); the deployment's dates
  are far from day 0, so natural-number truncation at 0 never arises in a
  reachable state.
* A stored table is a `List Row`; the store's `order by` clauses are modelled
  with `List.insertionSort` under the corresponding decidable total relation,
  and Supabase's serial id assignment as max-id-plus-one.
* The store's nullable numeric columns are read through `or 0` in the source,
  so rows carry plain rationals here (absent columns are zero).
-/

namespace Finance

abbrev Money := ℚ

/-- Python's `round(x, 2)` modelled on exact rationals: round to the nearest
multiple of `1/100`, ties to even (banker's rounding, Python's default). -/
def round2 (q : Money) : Money :=
  let n : Money := q * 100
  let f : ℤ := ⌊n⌋
  let frac : Money := n - (f : Money)
  let r : ℤ :=
    if frac < 1/2 then f
    else if 1/2 < frac then f + 1
    else if f % 2 = 0 then f else f + 1
  (r : Money) / 100

/-- Tiered daily gross interest, from `finance_tracker.py` lines 281-291 and
the identical block in `app.py` lines 78-89: 3.25% p.a. on the first
1,000,000 and 3.75% p.a. on the excess, divided by 365. -/
def dailyGross (balance : Money) : Money :=
  if balance ≤ 1000000 then (balance * (325/10000)) / 365
  else
    let tier1 : Money := ((1000000 : Money) * (325/10000)) / 365
    let excess : Money := balance - 1000000
    let tier2 : Money := (excess * (375/10000)) / 365
    tier1 + tier2

/-- Net credited interest: the source computes `tax = gross * 0.20` and
`net = round(gross - tax, 2)` (20% withholding tax, rounded once). -/
def netInterest (balance : Money) : Money :=
  let g := dailyGross balance
  round2 (g - g * (20/100))

/-- Python's `str.strip()`: drop whitespace from both ends. -/
def pyStrip (s : String) : String :=
  ⟨((s.data.dropWhile Char.isWhitespace).reverse.dropWhile Char.isWhitespace).reverse⟩

/-- One ledger row (table `finance_ledger`, snake_case column names).
`time`, `category`, `receipt` and `created_at` play no part in any claim
and are omitted. -/
structure Row where
  id : ℕ
  date : ℕ
  description : String
  incoming_ej : Money
  outgoing_ej : Money
  incoming_ej_neng : Money
  outgoing_ej_neng : Money
  ej_balance : Money
  ej_neng_balance : Money
  total : Money

/-- The store's ascending `(date, id)` ordering: `order("date").order("id")`. -/
def keyLE (r s : Row) : Prop :=
  r.date < s.date ∨ (r.date = s.date ∧ r.id ≤ s.id)

instance (r s : Row) : Decidable (keyLE r s) :=
  inferInstanceAs (Decidable (r.date < s.date ∨ (r.date = s.date ∧ r.id ≤ s.id)))

instance : IsTotal Row keyLE := ⟨fun r s => by unfold keyLE; omega⟩

instance : IsTrans Row keyLE := ⟨fun a b c => by unfold keyLE; omega⟩

instance : IsRefl Row keyLE := ⟨fun a => by unfold keyLE; omega⟩

/-- The descending `(date, id)` ordering used by `get_last_balances`:
`order("date", desc=True).order("id", desc=True)`. -/
def keyGE (r s : Row) : Prop := keyLE s r

instance (r s : Row) : Decidable (keyGE r s) :=
  inferInstanceAs (Decidable (keyLE s r))

instance : IsTotal Row keyGE := ⟨fun r s => by unfold keyGE keyLE; omega⟩

instance : IsTrans Row keyGE := ⟨fun a b c => by unfold keyGE keyLE; omega⟩

/-- Ascending `id` ordering, used by `get_all_transactions`
(`order("id", desc=False)`). -/
def idLE (r s : Row) : Prop := r.id ≤ s.id

instance (r s : Row) : Decidable (idLE r s) :=
  inferInstanceAs (Decidable (r.id ≤ s.id))

instance : IsTotal Row idLE := ⟨fun r s => Nat.le_total r.id s.id⟩

instance : IsTrans Row idLE := ⟨fun _ _ _ => Nat.le_trans⟩

/-- The table as fetched with `order("date", desc=False).order("id", desc=False)`
(also the `df.sort_values(by=["DateObj", "ID"])` step of the accrual backfill). -/
def sortByDateId (tbl : List Row) : List Row :=
  List.insertionSort keyLE tbl

/-- `SupabaseStorage.get_all_transactions`: full fetch with
`order("id", desc=False)` — ordered by `id` only. -/
def getAllTransactionsSB (tbl : List Row) : List Row :=
  List.insertionSort idLE tbl

/-- `SupabaseStorage.get_last_balances`: fetch ordered by date desc, id desc,
`limit 1`; returns that row's two balances, or `(0, 0)` with no rows. -/
def getLastBalancesSB (tbl : List Row) : Money × Money :=
  match (List.insertionSort keyGE tbl).head? with
  | some row => (row.ej_balance, row.ej_neng_balance)
  | none => (0, 0)

/-- `CSVStorage.get_last_balances`: `df.iloc[-1]` — the last row of the CSV
file in file (insertion) order; `(0, 0)` when the file is empty. -/
def getLastBalancesCSV (tbl : List Row) : Money × Money :=
  match tbl.getLast? with
  | some row => (row.ej_balance, row.ej_neng_balance)
  | none => (0, 0)

/-- `SupabaseStorage.check_entry_exists`: exact-match existence probe on
`date` and `description`. -/
def checkEntryExists (tbl : List Row) (d : ℕ) (desc : String) : Bool :=
  tbl.any (fun r => r.date == d && r.description == desc)

/-- Supabase's monotonically assigned serial id: one more than the largest
id in the table. -/
def nextId (tbl : List Row) : ℕ :=
  tbl.foldl (fun m r => max m r.id) 0 + 1

/-- One element of the batch produced by `recalculate_balances`: only the
balance/total columns of the row `id` are written. -/
structure Upd where
  id : ℕ
  ej_balance : Money
  ej_neng_balance : Money
  total : Money

/-- The row walk of `SupabaseStorage.recalculate_balances` (lines 179-195):
two running accumulators, and an update is emitted exactly when a stored
balance differs from its recomputed value by more than `0.01`; the stored
`total` is not consulted. -/
def recalcAux : Money → Money → List Row → List Upd
  | _, _, [] => []
  | ejBal, sharedBal, r :: rs =>
    let ejBal' := ejBal + (r.incoming_ej - r.outgoing_ej)
    let sharedBal' := sharedBal + (r.incoming_ej_neng - r.outgoing_ej_neng)
    let total := ejBal' + sharedBal'
    if |r.ej_balance - ejBal'| > 1/100 ∨ |r.ej_neng_balance - sharedBal'| > 1/100 then
      ⟨r.id, ejBal', sharedBal', total⟩ :: recalcAux ejBal' sharedBal' rs
    else recalcAux ejBal' sharedBal' rs

/-- `recalculate_balances`: fetch all rows ordered by `(date, id)` ascending
and walk them from zero accumulators, collecting the update batch. -/
def recalcUpdates (tbl : List Row) : List Upd :=
  recalcAux 0 0 (sortByDateId tbl)

/-- Applying one update payload to its row: only the balance columns change. -/
def applyUpd (r : Row) (u : Upd) : Row :=
  { r with ej_balance := u.ej_balance, ej_neng_balance := u.ej_neng_balance,
           total := u.total }

/-- Effect of an update batch on one row: replaced by its update when the
batch holds one for its id, untouched otherwise. -/
def updRow (us : List Upd) (r : Row) : Row :=
  match us.find? (fun u => u.id == r.id) with
  | some u => applyUpd r u
  | none => r

/-- The batch `upsert` at the end of `recalculate_balances`: each row of the
table is replaced by its update when the batch holds one for its id. -/
def applyUpdates (rows : List Row) (us : List Upd) : List Row :=
  rows.map (updRow us)

/-- The table after one `recalculate_balances` pass. -/
def recalcPost (tbl : List Row) : List Row :=
  applyUpdates tbl (recalcUpdates tbl)

/-- The post-recalculation table viewed in `(date, id)` ascending order
(applying the batch commutes with the sort since updates keep date and id). -/
def recalcPostOrdered (tbl : List Row) : List Row :=
  applyUpdates (sortByDateId tbl) (recalcAux 0 0 (sortByDateId tbl))

/-- Signed delta a row applies to balance A. -/
def deltaA (r : Row) : Money := r.incoming_ej - r.outgoing_ej

/-- Signed delta a row applies to balance B. -/
def deltaB (r : Row) : Money := r.incoming_ej_neng - r.outgoing_ej_neng

/-- Sum of A-deltas of a list of rows. -/
def sumDeltaA (l : List Row) : Money := (l.map deltaA).sum

/-- Sum of B-deltas of a list of rows. -/
def sumDeltaB (l : List Row) : Money := (l.map deltaB).sum

/-- The accrual backfill's interest-row test:
`df["Transaction"].str.strip() == "Maribank Interest"`. -/
def isInterestRow (r : Row) : Bool :=
  pyStrip r.description == "Maribank Interest"

/-- The backfill's per-day duplicate guard:
`df[(df["Date"] == next_date_str) & (df["Transaction"].str.strip() == "Maribank Interest")]`
is non-empty. -/
def hasInterestOn (df : List Row) (d : ℕ) : Bool :=
  df.any (fun r => r.date == d && isInterestRow r)

/-- The rows the backfill considers "past" for day `next`:
`df["DateObj"].dt.date <= balance_date` with `balance_date = next_date - 1`,
i.e. date strictly before `next`. -/
def pastRows (df : List Row) (next : ℕ) : List Row :=
  df.filter (fun r => decide (r.date < next))

/-- `interest_df["DateObj"].max()` over the interest rows, when any exist. -/
def maxInterestDate (df : List Row) : Option ℕ :=
  match (df.filter isInterestRow).map (fun r => r.date) with
  | [] => none
  | d :: ds => some (ds.foldl max d)

/-- The interest entry appended by either accrual variant for day `d`: the
net amount goes into `Incoming (EJ & Neng)`; every other numeric column is
zero (the backfill writes explicit zeros, the single-day variant omits the
columns and the store defaults them). -/
def mkInterestRow (idv d : ℕ) (net : Money) : Row :=
  { id := idv, date := d, description := "Maribank Interest",
    incoming_ej := 0, outgoing_ej := 0,
    incoming_ej_neng := net, outgoing_ej_neng := 0,
    ej_balance := 0, ej_neng_balance := 0, total := 0 }

/-- The day loop of `app.py`'s `check_maribank_interest` (lines 59-114).
`fuel` is the number of remaining days (`today + 1 - next`); `session` is the
same-pass interest already credited (`session_interest`); `idv` the next
store-assigned id.  For each day: skip if an interest row for that date
already exists in the fetched frame; read the running total from the last
fetched row dated before the day; if that total plus the session interest is
positive and the net interest reaches one centavo, append an interest row
(deferring recalculation) and compound it into the session. -/
def backfillGo (df : List Row) : ℕ → ℕ → Money → ℕ → List Row
  | _, 0, _, _ => []
  | next, fuel+1, session, idv =>
    if hasInterestOn df next then backfillGo df (next+1) fuel session idv
    else
      match (pastRows df next).getLast? with
      | none => backfillGo df (next+1) fuel session idv
      | some lastRow =>
        let currentTotal := lastRow.total + session
        if currentTotal > 0 then
          let net := netInterest currentTotal
          if net ≥ 1/100 then
            mkInterestRow idv next net ::
              backfillGo df (next+1) fuel (session + net) (idv+1)
          else backfillGo df (next+1) fuel session idv
        else backfillGo df (next+1) fuel session idv

/-- Decision mirror of `backfillGo`: `true` when every remaining day of the
loop appends an interest row (no duplicate skip, a past row exists, the
running total is positive and the net interest reaches one centavo). -/
def allQualify (df : List Row) : ℕ → ℕ → Money → Bool
  | _, 0, _ => true
  | next, fuel+1, session =>
    if hasInterestOn df next then false
    else
      match (pastRows df next).getLast? with
      | none => false
      | some lastRow =>
        let currentTotal := lastRow.total + session
        if currentTotal > 0 then
          let net := netInterest currentTotal
          if net ≥ 1/100 then allQualify df (next+1) fuel (session + net)
          else false
        else false

/-- The rows `app.py check_maribank_interest` inserts in one invocation:
empty-store and empty-frame early returns, sort by `(DateObj, ID)`, find the
last logged interest date (falling back to yesterday), then run the day loop
from the following day up to and including `today`. -/
def appBackfillAdded (tbl : List Row) (today : ℕ) : List Row :=
  if tbl.isEmpty then []
  else
    let df := sortByDateId tbl
    let lastInterest : ℕ :=
      match maxInterestDate df with
      | some d => d
      | none => today - 1
    backfillGo df (lastInterest + 1) (today - lastInterest) 0 (nextId tbl)

/-- The same insertions paired with the literal `recalculate=False` flag each
`storage.add_entry(new_entry, recalculate=False)` call passes. -/
def appBackfillAddCalls (tbl : List Row) (today : ℕ) : List (Row × Bool) :=
  (appBackfillAdded tbl today).map (fun r => (r, false))

/-- Number of `recalculate_balances` calls one backfill invocation issues:
one at the end when any entry was added, none otherwise. -/
def appBackfillRecalcCount (tbl : List Row) (today : ℕ) : ℕ :=
  if (appBackfillAdded tbl today).isEmpty then 0 else 1

/-- The table after one `app.py` accrual invocation: the new rows are
appended (each insert deferred recalculation) and a single recalculation
pass runs when anything was added. -/
def appBackfillPost (tbl : List Row) (today : ℕ) : List Row :=
  let added := appBackfillAdded tbl today
  if added.isEmpty then tbl else recalcPost (tbl ++ added)

/-- The combined running total the single-day variant computes from
`get_last_balances`. -/
def trackerTotal (tbl : List Row) : Money :=
  (getLastBalancesSB tbl).1 + (getLastBalancesSB tbl).2

/-- The entry `FinanceTracker.check_maribank_interest` (lines 266-307) adds,
if any: return early when today's interest already exists (exact date and
description match); otherwise compute the net interest on the latest total
and add an entry when it is positive and reaches one centavo. -/
def trackerInterestEntry (tbl : List Row) (today : ℕ) : Option Row :=
  if checkEntryExists tbl today "Maribank Interest" then none
  else
    let currentTotal := trackerTotal tbl
    if currentTotal > 0 then
      let net := netInterest currentTotal
      if net ≥ 1/100 then some (mkInterestRow (nextId tbl) today net)
      else none
    else none

/-- The table after one single-day accrual invocation; `add_entry` is called
with the default `recalculate=True`, so a full recalculation follows the
insert. -/
def trackerPost (tbl : List Row) (today : ℕ) : List Row :=
  match trackerInterestEntry tbl today with
  | some r => recalcPost (tbl ++ [r])
  | none => tbl

/-- The shared per-day accrual guard of both variants (`app.py` lines 77-96,
`finance_tracker.py` lines 280-298): accrue exactly when the running total is
strictly positive and the rounded net interest reaches one centavo. -/
def accrualDecision (currentTotal : Money) : Option Money :=
  if currentTotal > 0 then
    let net := netInterest currentTotal
    if net ≥ 1/100 then some net else none
  else none

/-- At most one row with description `"Maribank Interest"` per calendar
date (claim C3's invariant shape). -/
def atMostOnePerDate (tbl : List Row) : Prop :=
  tbl.Pairwise (fun r s =>
    r.description = "Maribank Interest" → s.description = "Maribank Interest" →
      r.date ≠ s.date)

instance (tbl : List Row) : Decidable (atMostOnePerDate tbl) :=
  inferInstanceAs (Decidable (List.Pairwise (fun (r s : Row) =>
    r.description = "Maribank Interest" → s.description = "Maribank Interest" →
      r.date ≠ s.date) tbl))

/-- The Title-Case-to-snake_case column map of `SupabaseStorage.col_map`. -/
def colMap (k : String) : Option String :=
  if k = "ID" then some "id"
  else if k = "Date" then some "date"
  else if k = "Time" then some "time"
  else if k = "Category" then some "category"
  else if k = "Transaction" then some "description"
  else if k = "EJ Balance" then some "ej_balance"
  else if k = "EJ & Neng Balance" then some "ej_neng_balance"
  else if k = "Incoming EJ" then some "incoming_ej"
  else if k = "Outgoing EJ" then some "outgoing_ej"
  else if k = "Incoming (EJ & Neng)" then some "incoming_ej_neng"
  else if k = "Outgoing (EJ & Neng)" then some "outgoing_ej_neng"
  else if k = "Total" then some "total"
  else if k = "Receipt" then some "receipt"
  else if k = "Created At" then some "created_at"
  else none

/-- The write payload built by `SupabaseStorage.update_entry` (line 160):
`{self.col_map.get(k, k): v for k, v in data.items() if k in self.col_map}` —
every provided key that is a known column is mapped and kept, all others are
dropped.  Values are opaque to this step. -/
def updateEntryPayload {α : Type} (data : List (String × α)) : List (String × α) :=
  data.filterMap (fun kv => (colMap kv.1).map (fun dbKey => (dbKey, kv.2)))

/-- The store calls `update_entry` issues, in order. -/
inductive StorageCall (α : Type)
  | updateRow (payload : List (String × α))
  | recalc

/-- `update_entry(entry_id, data, recalculate)`: one partial-field update,
then a full recalculation exactly when the flag is true. -/
def updateEntryCalls {α : Type} (data : List (String × α)) (recalculate : Bool) :
    List (StorageCall α) :=
  StorageCall.updateRow (updateEntryPayload data) ::
    (if recalculate then [StorageCall.recalc] else [])

/-- Failure modes the spec names for accrual: the store being unreachable or
a prior row failing to parse. -/
inductive StoreErr
  | unavailable
  | malformedRow
  deriving DecidableEq

/-- One invocation's worth of store responses, each either a value or a
raised error.  `check_entry_exists` and `SupabaseStorage.exists` catch their
own exceptions and return a boolean, so they never raise. -/
structure StoreResponses where
  entryExistsToday : Bool
  lastBalances : Except StoreErr (Money × Money)
  insertResult : Except StoreErr Unit
  recalcResult : Except StoreErr Unit
  storeExists : Bool
  fetchAll : Except StoreErr (List Row)

/-- `FinanceTracker.check_maribank_interest` with the store's possible
failures made explicit.  The body has no exception handler, so an error from
`get_last_balances` or from `add_entry` (including the recalculation it
triggers) propagates to the caller.  Returns whether an entry was added. -/
def trackerCheckE (o : StoreResponses) : Except StoreErr Bool :=
  if o.entryExistsToday then .ok false
  else
    match o.lastBalances with
    | .error e => .error e
    | .ok p =>
      let currentTotal := p.1 + p.2
      if currentTotal > 0 then
        let net := netInterest currentTotal
        if net ≥ 1/100 then
          match o.insertResult with
          | .error e => .error e
          | .ok _ =>
            match o.recalcResult with
            | .error e => .error e
            | .ok _ => .ok true
        else .ok false
      else .ok false

/-- The body of `app.py check_maribank_interest` before its `try`/`except`:
early return when the store reports no data, then the fetch, the pure day
loop, and the deferred inserts plus single recalculation, each able to
raise. -/
def appCheckRawE (o : StoreResponses) (today : ℕ) : Except StoreErr (List Row) :=
  if o.storeExists = false then .ok []
  else
    match o.fetchAll with
    | .error e => .error e
    | .ok tbl =>
      let added := appBackfillAdded tbl today
      if added.isEmpty then .ok []
      else
        match o.insertResult with
        | .error e => .error e
        | .ok _ =>
          match o.recalcResult with
          | .error e => .error e
          | .ok _ => .ok added

/-- `app.py check_maribank_interest` as callers see it: the whole body runs
inside `try`/`except Exception`, which logs and falls through, so every
failure surfaces as a normal return with nothing added. -/
def appCheckE (o : StoreResponses) (today : ℕ) : Except StoreErr (List Row) :=
  match appCheckRawE o today with
  | .error _ => .ok []
  | .ok l => .ok l

/-! ## Concrete ledger states used in witnesses and counterexamples -/

/-- Positional row constructor, for concrete tables. -/
def mkRow (idv d : ℕ) (desc : String) (ia oa ib ob ba bb t : Money) : Row :=
  { id := idv, date := d, description := desc,
    incoming_ej := ia, outgoing_ej := oa,
    incoming_ej_neng := ib, outgoing_ej_neng := ob,
    ej_balance := ba, ej_neng_balance := bb, total := t }

/-- A row whose stored balances match its (zero) deltas exactly while its
stored `total` is off by 100. -/
def c1BadRow : Row := mkRow 0 1 "Seed" 0 0 0 0 0 0 100

/-- Two consistent rows: a deposit of 10 to A on day 5 and of 5 to B on
day 6. -/
def c1WitnessTbl : List Row :=
  [mkRow 0 5 "Seed" 10 0 0 0 10 0 10,
   mkRow 1 6 "Deposit" 0 0 5 0 10 5 15]

/-- A ledger whose last interest row is dated one day before day 11 and whose
running total is a (tiny) positive 1 throughout. -/
def c2CexTbl : List Row :=
  [mkRow 0 9 "Seed" 1 0 0 0 1 0 1,
   mkRow 1 10 "Maribank Interest" 0 0 0 0 1 0 1]

/-- A ledger with total 1000 whose last interest row is dated two days before
day 12. -/
def c2WitnessTbl : List Row :=
  [mkRow 0 9 "Seed" 1000 0 0 0 1000 0 1000,
   mkRow 1 10 "Maribank Interest" 0 0 0 0 1000 0 1000]

/-- A ledger whose last row (day 10) has a stale stored `total` of 0 while
its recomputed total is 1500: the first backfill invocation reads the stale
total and skips days 11 and 12, and its recalculation then repairs the
total, so a second invocation for the same day accrues those days. -/
def c3CexTbl : List Row :=
  [mkRow 0 8 "Initial Balance" 1000 0 0 0 1000 0 1000,
   mkRow 1 9 "Maribank Interest" 0 0 0 0 1000 0 1000,
   mkRow 2 10 "Topup" 500 0 0 0 0 0 0]

/-- A one-row ledger for exercising the accrual preservation theorem. -/
def c3WitnessTbl : List Row := [mkRow 0 5 "Seed" 10 0 0 0 10 0 10]

/-- The state of `c3CexTbl` after one backfill invocation for day 12: the
day-10 interest row was appended and the closing recalculation rewrote the
two drifted rows. -/
def c3PostTbl : List Row :=
  [mkRow 0 8 "Initial Balance" 1000 0 0 0 1000 0 1000,
   mkRow 1 9 "Maribank Interest" 0 0 0 0 1000 0 1000,
   mkRow 2 10 "Topup" 500 0 0 0 1500 0 1500,
   mkRow 3 10 "Maribank Interest" 0 0 (7/100) 0 1500 (7/100) (1500 + 7/100)]

/-- Latest balances summing to 730/13, the balance at which one day's net
interest is exactly 0.004 before rounding. -/
def c5LowTbl : List Row := [mkRow 0 5 "Seed" 0 0 0 0 (730/13) 0 (730/13)]

/-- Latest balances summing to 1825/13, the balance at which one day's net
interest is exactly 0.01. -/
def c5HighTbl : List Row := [mkRow 0 5 "Seed" 0 0 0 0 (1825/13) 0 (1825/13)]

/-- A frame whose running total is -5 up to day 5 and 1000 from day 6: a
two-day backfill over days 6 and 7 must skip day 6 and accrue day 7. -/
def c5SkipDf : List Row :=
  [mkRow 0 5 "Down" 0 5 0 0 0 0 (-5),
   mkRow 1 6 "Up" 1005 0 0 0 1000 0 1000]

/-- Two CSV rows appended out of date order: the later-dated row was stored
first. -/
def c7CexTbl : List Row :=
  [mkRow 0 20 "A" 0 0 0 0 1 1 2,
   mkRow 1 10 "B" 0 0 0 0 2 2 4]

/-- The `(date, id)`-maximal row of `c7CexTbl`. -/
def c7MaxRow : Row := mkRow 0 20 "A" 0 0 0 0 1 1 2

/-- Two rows whose id order disagrees with their date order. -/
def c8CexTbl : List Row :=
  [mkRow 1 20 "A" 0 0 0 0 0 0 0,
   mkRow 2 10 "B" 0 0 0 0 0 0 0]

/-- A store round where today's interest is not yet logged and
`get_last_balances` raises (store unavailable). -/
def c9ErrResponses : StoreResponses :=
  { entryExistsToday := false, lastBalances := .error .unavailable,
    insertResult := .ok (), recalcResult := .ok (), storeExists := true,
    fetchAll := .ok [] }

/-! ## Lemmas about the recalculation pass -/

theorem mem_recalcAux_ids {rs : List Row} {a b : Money} {u : Upd}
    (hu : u ∈ recalcAux a b rs) : u.id ∈ rs.map (fun r => r.id) := by
  induction rs generalizing a b with
  | nil => simp [recalcAux] at hu
  | cons r rest ih =>
    rw [recalcAux] at hu
    split at hu
    · rcases List.mem_cons.mp hu with h | h
      · simp [h]
      · simpa using Or.inr (ih h)
    · simpa using Or.inr (ih hu)

theorem applyUpdates_cons_notMem (rows : List Row) (us : List Upd) (u : Upd)
    (h : u.id ∉ rows.map (fun r => r.id)) :
    applyUpdates rows (u :: us) = applyUpdates rows us := by
  unfold applyUpdates
  refine List.map_congr_left (fun r hr => ?_)
  have hne : (u.id == r.id) = false := by
    refine beq_eq_false_iff_ne.mpr (fun he => h ?_)
    exact he ▸ List.mem_map_of_mem (fun x => x.id) hr
  unfold updRow
  rw [List.find?_cons_of_neg _ (by simp [hne])]

theorem applyUpdates_getElem? (rows : List Row) (us : List Upd) (i : ℕ) :
    (applyUpdates rows us)[i]? = (rows[i]?).map (fun r =>
      match us.find? (fun u => u.id == r.id) with
      | some u => applyUpd r u
      | none => r) := by
  simp only [applyUpdates, List.getElem?_map]
  rfl

/-- The update batch holds an entry for the `i`-th walked row exactly when one
of its two stored balances drifts more than `0.01` from the recomputed prefix
sums; the entry then carries those prefix sums and their total. -/
theorem recalcAux_find?_spec (rs : List Row) (hnd : (rs.map (fun r => r.id)).Nodup)
    (a b : Money) (i : ℕ) (hi : i < rs.length) :
    (recalcAux a b rs).find? (fun u => u.id == rs[i].id) =
      (if |rs[i].ej_balance - (a + sumDeltaA (rs.take (i+1)))| > 1/100 ∨
          |rs[i].ej_neng_balance - (b + sumDeltaB (rs.take (i+1)))| > 1/100
       then some ⟨rs[i].id,
                  a + sumDeltaA (rs.take (i+1)),
                  b + sumDeltaB (rs.take (i+1)),
                  (a + sumDeltaA (rs.take (i+1))) + (b + sumDeltaB (rs.take (i+1)))⟩
       else none) := by
  induction rs generalizing a b i with
  | nil => exact absurd hi (by simp)
  | cons r rest ih =>
    have hnd' : (∀ x ∈ rest, ¬ x.id = r.id) ∧ (rest.map (fun x => x.id)).Nodup := by
      simpa using hnd
    have hr_notin : r.id ∉ rest.map (fun x => x.id) := by
      simp only [List.mem_map]
      rintro ⟨x, hx, he⟩
      exact hnd'.1 x hx he
    cases i with
    | zero =>
      have hsum : sumDeltaA ((r :: rest).take 1) = r.incoming_ej - r.outgoing_ej := by
        simp [sumDeltaA, deltaA]
      have hsumb : sumDeltaB ((r :: rest).take 1) = r.incoming_ej_neng - r.outgoing_ej_neng := by
        simp [sumDeltaB, deltaB]
      have hget : (r :: rest)[0] = r := rfl
      rw [hget, hsum, hsumb, recalcAux]
      split
      · exact List.find?_cons_of_pos _ (by simp)
      · refine List.find?_eq_none.mpr (fun u hu => ?_)
        have hmem : u.id ∈ rest.map (fun x => x.id) := mem_recalcAux_ids hu
        simp only [beq_iff_eq]
        intro he
        exact hr_notin (he ▸ hmem)
    | succ j =>
      have hj : j < rest.length := by simpa using hi
      have hget : (r :: rest)[j + 1] = rest[j] := rfl
      have hida : rest[j].id ∈ rest.map (fun x => x.id) :=
        List.mem_map_of_mem (fun x => x.id) (rest.getElem_mem hj)
      have hne : ¬ (r.id = rest[j].id) := fun he => hr_notin (he ▸ hida)
      have hsa : a + sumDeltaA ((r :: rest).take (j + 1 + 1)) =
          (a + (r.incoming_ej - r.outgoing_ej)) + sumDeltaA (rest.take (j + 1)) := by
        simp only [List.take_succ_cons, sumDeltaA, deltaA, List.map_cons, List.sum_cons]
        ring
      have hsb : b + sumDeltaB ((r :: rest).take (j + 1 + 1)) =
          (b + (r.incoming_ej_neng - r.outgoing_ej_neng)) + sumDeltaB (rest.take (j + 1)) := by
        simp only [List.take_succ_cons, sumDeltaB, deltaB, List.map_cons, List.sum_cons]
        ring
      rw [hget, hsa, hsb, recalcAux]
      have htail := ih hnd'.2
        (a + (r.incoming_ej - r.outgoing_ej)) (b + (r.incoming_ej_neng - r.outgoing_ej_neng)) j hj
      split
      · rw [List.find?_cons_of_neg _ (by simp [hne]), htail]
      · rw [htail]

/-- After the pass, the `i`-th row in walk order carries either exactly the
recomputed balances (when an update was emitted) or its stored balances,
which the guard certifies are within `0.01` of the recomputed ones. -/
theorem recalcAux_post_balances (rs : List Row) (hnd : (rs.map (fun r => r.id)).Nodup)
    (a b : Money) (i : ℕ) (hi : i < rs.length) (row : Row)
    (hrow : (applyUpdates rs (recalcAux a b rs))[i]? = some row) :
    |row.ej_balance - (a + sumDeltaA (rs.take (i+1)))| ≤ 1/100 ∧
    |row.ej_neng_balance - (b + sumDeltaB (rs.take (i+1)))| ≤ 1/100 := by
  rw [applyUpdates_getElem? rs _ i, List.getElem?_eq_getElem hi] at hrow
  rw [Option.map_some', Option.some_inj] at hrow
  rw [recalcAux_find?_spec rs hnd a b i hi] at hrow
  by_cases hcond : |rs[i].ej_balance - (a + sumDeltaA (rs.take (i+1)))| > 1/100 ∨
      |rs[i].ej_neng_balance - (b + sumDeltaB (rs.take (i+1)))| > 1/100
  · rw [if_pos hcond] at hrow
    subst hrow
    constructor <;> simp [applyUpd]
  · rw [if_neg hcond] at hrow
    subst hrow
    push_neg at hcond
    exact ⟨hcond.1, hcond.2⟩

/-- Every update in a batch sets `total` to the sum of the two balances it
sets. -/
theorem recalcAux_total_eq (rs : List Row) (a b : Money) (u : Upd)
    (hu : u ∈ recalcAux a b rs) : u.total = u.ej_balance + u.ej_neng_balance := by
  induction rs generalizing a b with
  | nil => simp [recalcAux] at hu
  | cons r rest ih =>
    rw [recalcAux] at hu
    split at hu
    · rcases List.mem_cons.mp hu with h | h
      · subst h; rfl
      · exact ih _ _ h
    · exact ih _ _ hu

/-! ## Lemmas about the accrual backfill -/

theorem isInterestRow_of_desc {r : Row} (h : r.description = "Maribank Interest") :
    isInterestRow r = true := by
  unfold isInterestRow
  rw [h]
  decide

theorem hasInterestOn_true_of_mem {df : List Row} {r : Row} {d : ℕ} (hmem : r ∈ df)
    (hdesc : r.description = "Maribank Interest") (hdate : r.date = d) :
    hasInterestOn df d = true := by
  unfold hasInterestOn
  rw [List.any_eq_true]
  exact ⟨r, hmem, by simp [hdate, isInterestRow_of_desc hdesc]⟩

/-- When every day of the remaining loop qualifies, the appended rows carry
exactly the consecutive dates of the gap, in order. -/
theorem backfillGo_dates_of_allQualify (df : List Row) (fuel : ℕ) :
    ∀ (next : ℕ) (session : Money) (idv : ℕ),
      allQualify df next fuel session = true →
      (backfillGo df next fuel session idv).map (fun r => r.date) =
        List.range' next fuel := by
  induction fuel with
  | zero =>
    intro next session idv _
    simp [backfillGo]
  | succ fuel ih =>
    intro next session idv hq
    simp only [allQualify] at hq
    simp only [backfillGo]
    by_cases hdup : hasInterestOn df next = true
    · rw [if_pos hdup] at hq
      exact absurd hq (by simp)
    · rw [if_neg hdup] at hq
      rw [if_neg hdup]
      cases hpast : (pastRows df next).getLast? with
      | none =>
        rw [hpast] at hq
        exact absurd hq (by simp)
      | some lastRow =>
        rw [hpast] at hq
        dsimp only at hq ⊢
        by_cases hpos : lastRow.total + session > 0
        · rw [if_pos hpos] at hq
          by_cases hnet : netInterest (lastRow.total + session) ≥ 1/100
          · rw [if_pos hnet] at hq
            rw [if_pos hpos, if_pos hnet, List.map_cons,
              ih (next+1) (session + netInterest (lastRow.total + session)) (idv+1) hq,
              List.range'_succ]
            rfl
          · rw [if_neg hnet] at hq
            exact absurd hq (by simp)
        · rw [if_neg hpos] at hq
          exact absurd hq (by simp)

/-- Every row the day loop appends is dated inside the processed window, on a
date that had no interest row in the fetched frame, and is itself an
interest row. -/
theorem backfillGo_mem (df : List Row) (fuel : ℕ) :
    ∀ {next : ℕ} {session : Money} {idv : ℕ} {r : Row},
      r ∈ backfillGo df next fuel session idv →
      next ≤ r.date ∧ r.date < next + fuel ∧ hasInterestOn df r.date = false ∧
        r.description = "Maribank Interest" := by
  induction fuel with
  | zero =>
    intro next session idv r h
    simp [backfillGo] at h
  | succ fuel ih =>
    intro next session idv r h
    simp only [backfillGo] at h
    by_cases hdup : hasInterestOn df next = true
    · rw [if_pos hdup] at h
      obtain ⟨h1, h2, h3, h4⟩ := ih h
      exact ⟨by omega, by omega, h3, h4⟩
    · rw [if_neg hdup] at h
      cases hpast : (pastRows df next).getLast? with
      | none =>
        rw [hpast] at h
        obtain ⟨h1, h2, h3, h4⟩ := ih h
        exact ⟨by omega, by omega, h3, h4⟩
      | some lastRow =>
        rw [hpast] at h
        dsimp only at h
        by_cases hpos : lastRow.total + session > 0
        · rw [if_pos hpos] at h
          by_cases hnet : netInterest (lastRow.total + session) ≥ 1/100
          · rw [if_pos hnet] at h
            rcases List.mem_cons.mp h with hhead | htail
            · subst hhead
              refine ⟨le_refl _, ?_, ?_, rfl⟩
              · show next < next + (fuel + 1)
                omega
              · show hasInterestOn df next = false
                simpa using hdup
            · obtain ⟨h1, h2, h3, h4⟩ := ih htail
              exact ⟨by omega, by omega, h3, h4⟩
          · rw [if_neg hnet] at h
            obtain ⟨h1, h2, h3, h4⟩ := ih h
            exact ⟨by omega, by omega, h3, h4⟩
        · rw [if_neg hpos] at h
          obtain ⟨h1, h2, h3, h4⟩ := ih h
          exact ⟨by omega, by omega, h3, h4⟩

/-- The appended rows carry pairwise strictly increasing dates. -/
theorem backfillGo_dates_pairwise (df : List Row) (fuel : ℕ) :
    ∀ {next : ℕ} {session : Money} {idv : ℕ},
      (backfillGo df next fuel session idv).Pairwise (fun r s => r.date < s.date) := by
  induction fuel with
  | zero =>
    intro next session idv
    simp [backfillGo]
  | succ fuel ih =>
    intro next session idv
    simp only [backfillGo]
    by_cases hdup : hasInterestOn df next = true
    · rw [if_pos hdup]; exact ih
    · rw [if_neg hdup]
      cases hpast : (pastRows df next).getLast? with
      | none => exact ih
      | some lastRow =>
        dsimp only
        by_cases hpos : lastRow.total + session > 0
        · rw [if_pos hpos]
          by_cases hnet : netInterest (lastRow.total + session) ≥ 1/100
          · rw [if_pos hnet]
            refine List.Pairwise.cons (fun s hs => ?_) ih
            have := (backfillGo_mem df fuel hs).1
            simpa [mkInterestRow] using by omega
          · rw [if_neg hnet]; exact ih
        · rw [if_neg hpos]; exact ih

/-! ## The one-interest-row-per-date invariant -/

theorem updRow_date (us : List Upd) (r : Row) : (updRow us r).date = r.date := by
  unfold updRow
  cases us.find? (fun u => u.id == r.id) <;> rfl

theorem updRow_description (us : List Upd) (r : Row) :
    (updRow us r).description = r.description := by
  unfold updRow
  cases us.find? (fun u => u.id == r.id) <;> rfl

theorem atMostOnePerDate_applyUpdates {rows : List Row} (us : List Upd)
    (h : atMostOnePerDate rows) : atMostOnePerDate (applyUpdates rows us) := by
  unfold atMostOnePerDate applyUpdates at *
  rw [List.pairwise_map]
  refine h.imp (fun {a b} hab => ?_)
  simpa only [updRow_date, updRow_description] using hab

theorem checkEntryExists_true_of_mem {tbl : List Row} {r : Row} {d : ℕ} {desc : String}
    (hm : r ∈ tbl) (hd : r.date = d) (hdesc : r.description = desc) :
    checkEntryExists tbl d desc = true := by
  unfold checkEntryExists
  rw [List.any_eq_true]
  exact ⟨r, hm, by simp [hd, hdesc]⟩

theorem checkEntryExists_applyUpdates (tbl : List Row) (us : List Upd) (d : ℕ)
    (desc : String) :
    checkEntryExists (applyUpdates tbl us) d desc = checkEntryExists tbl d desc := by
  unfold checkEntryExists applyUpdates
  rw [List.any_map]
  refine congrArg _ (funext fun r => ?_)
  simp [Function.comp, updRow_date, updRow_description]

/-! ## Lemmas about the single-day accrual variant -/

theorem trackerInterestEntry_eq_some {tbl : List Row} {today : ℕ} {r : Row}
    (h : trackerInterestEntry tbl today = some r) :
    r = mkInterestRow (nextId tbl) today (netInterest (trackerTotal tbl)) ∧
      checkEntryExists tbl today "Maribank Interest" = false := by
  unfold trackerInterestEntry at h
  by_cases h1 : checkEntryExists tbl today "Maribank Interest" = true
  · rw [if_pos h1] at h
    exact absurd h (by simp)
  · rw [if_neg h1] at h
    dsimp only at h
    by_cases h2 : trackerTotal tbl > 0
    · rw [if_pos h2] at h
      by_cases h3 : netInterest (trackerTotal tbl) ≥ 1/100
      · rw [if_pos h3] at h
        refine ⟨by simpa using h.symm, by simpa using h1⟩
      · rw [if_neg h3] at h
        exact absurd h (by simp)
    · rw [if_neg h2] at h
      exact absurd h (by simp)

/-- A second single-day invocation for the same `today` is a no-op: either
nothing was added (the state is unchanged and the same decision recurs) or
today's row now exists and the existence check fires. -/
theorem trackerInterestEntry_post_none (tbl : List Row) (today : ℕ) :
    trackerInterestEntry (trackerPost tbl today) today = none := by
  unfold trackerPost
  cases h : trackerInterestEntry tbl today with
  | none => exact h
  | some r =>
    obtain ⟨hr, -⟩ := trackerInterestEntry_eq_some h
    have hmem : r ∈ tbl ++ [r] := by simp
    have hex : checkEntryExists (recalcPost (tbl ++ [r])) today "Maribank Interest" = true := by
      unfold recalcPost
      rw [checkEntryExists_applyUpdates]
      exact checkEntryExists_true_of_mem hmem (by rw [hr]; rfl) (by rw [hr]; rfl)
    unfold trackerInterestEntry
    rw [if_pos hex]

theorem atMostOnePerDate_trackerPost (tbl : List Row) (today : ℕ)
    (h : atMostOnePerDate tbl) : atMostOnePerDate (trackerPost tbl today) := by
  unfold trackerPost
  cases he : trackerInterestEntry tbl today with
  | none => exact h
  | some r =>
    obtain ⟨hr, hex⟩ := trackerInterestEntry_eq_some he
    refine atMostOnePerDate_applyUpdates _ ?_
    unfold atMostOnePerDate
    rw [List.pairwise_append]
    refine ⟨h, by simp, fun a ha b hb => ?_⟩
    have hb' : b = r := by simpa using hb
    subst hb'
    intro hadesc hbdesc hdates
    have : checkEntryExists tbl today "Maribank Interest" = true := by
      refine checkEntryExists_true_of_mem ha ?_ hadesc
      rw [hdates, hr]
      rfl
    rw [this] at hex
    exact absurd hex (by simp)

/-! ## Preservation of the invariant by the backfill variant -/

theorem appBackfillAdded_pairwise (tbl : List Row) (today : ℕ) :
    (appBackfillAdded tbl today).Pairwise (fun r s => r.date < s.date) := by
  unfold appBackfillAdded
  by_cases he : tbl.isEmpty
  · rw [if_pos he]
    simp
  · rw [if_neg he]
    exact backfillGo_dates_pairwise _ _

theorem appBackfillAdded_mem {tbl : List Row} {today : ℕ} {r : Row}
    (h : r ∈ appBackfillAdded tbl today) :
    hasInterestOn (sortByDateId tbl) r.date = false ∧
      r.description = "Maribank Interest" := by
  unfold appBackfillAdded at h
  by_cases he : tbl.isEmpty
  · rw [if_pos he] at h
    simp at h
  · rw [if_neg he] at h
    obtain ⟨-, -, h3, h4⟩ := backfillGo_mem _ _ h
    exact ⟨h3, h4⟩

theorem atMostOnePerDate_appBackfillPost (tbl : List Row) (today : ℕ)
    (h : atMostOnePerDate tbl) : atMostOnePerDate (appBackfillPost tbl today) := by
  unfold appBackfillPost
  by_cases hadd : (appBackfillAdded tbl today).isEmpty
  · rw [if_pos hadd]
    exact h
  · rw [if_neg hadd]
    refine atMostOnePerDate_applyUpdates _ ?_
    unfold atMostOnePerDate
    rw [List.pairwise_append]
    refine ⟨h, ?_, fun a ha b hb => ?_⟩
    · exact (appBackfillAdded_pairwise tbl today).imp
        (fun {x y} hxy => fun _ _ => Nat.ne_of_lt hxy)
    · intro hadesc hbdesc hdates
      obtain ⟨hno, -⟩ := appBackfillAdded_mem hb
      have : hasInterestOn (sortByDateId tbl) b.date = true := by
        refine hasInterestOn_true_of_mem ?_ hadesc hdates
        exact ((List.perm_insertionSort keyLE tbl).mem_iff).mpr ha
      rw [this] at hno
      exact absurd hno (by simp)

/-! ## Per-day accrual decision and last-row lemmas -/

/-- Within one loop step, a row for day `next` is appended exactly when the
running total is strictly positive and the rounded net interest reaches one
centavo. -/
theorem backfillGo_day_iff (df : List Row) (next fuel : ℕ) (session : Money)
    (idv : ℕ) (lastRow : Row) (hdup : hasInterestOn df next = false)
    (hpast : (pastRows df next).getLast? = some lastRow) :
    (∃ r ∈ backfillGo df next (fuel+1) session idv, r.date = next) ↔
      (0 < lastRow.total + session ∧ 1/100 ≤ netInterest (lastRow.total + session)) := by
  simp only [backfillGo]
  rw [if_neg (by simp [hdup]), hpast]
  dsimp only
  constructor
  · rintro ⟨r, hr, hdate⟩
    by_cases hpos : lastRow.total + session > 0
    · rw [if_pos hpos] at hr
      by_cases hnet : netInterest (lastRow.total + session) ≥ 1/100
      · exact ⟨hpos, hnet⟩
      · rw [if_neg hnet] at hr
        have hge := (backfillGo_mem df fuel hr).1
        omega
    · rw [if_neg hpos] at hr
      have hge := (backfillGo_mem df fuel hr).1
      omega
  · rintro ⟨hpos, hnet⟩
    rw [if_pos hpos, if_pos hnet]
    exact ⟨mkInterestRow idv next (netInterest (lastRow.total + session)), by simp, rfl⟩

/-- One accruing step of the day loop, for concrete evaluation. -/
theorem backfillGo_step_add (df : List Row) (next fuel : ℕ) (session : Money)
    (idv : ℕ) (lastRow : Row) (net : Money)
    (hdup : ¬(hasInterestOn df next = true))
    (hpast : (pastRows df next).getLast? = some lastRow)
    (hpos : lastRow.total + session > 0)
    (hnet : netInterest (lastRow.total + session) = net)
    (hge : net ≥ 1/100) :
    backfillGo df next (fuel+1) session idv =
      mkInterestRow idv next net ::
        backfillGo df (next+1) fuel (session + net) (idv+1) := by
  rw [backfillGo, if_neg hdup, hpast]
  dsimp only
  rw [if_pos hpos, hnet, if_pos hge]

/-- One below-threshold step of the day loop, for concrete evaluation. -/
theorem backfillGo_step_skip_net (df : List Row) (next fuel : ℕ) (session : Money)
    (idv : ℕ) (lastRow : Row)
    (hdup : ¬(hasInterestOn df next = true))
    (hpast : (pastRows df next).getLast? = some lastRow)
    (hpos : lastRow.total + session > 0)
    (hlt : ¬(netInterest (lastRow.total + session) ≥ 1/100)) :
    backfillGo df next (fuel+1) session idv =
      backfillGo df (next+1) fuel session idv := by
  rw [backfillGo, if_neg hdup, hpast]
  dsimp only
  rw [if_pos hpos, if_neg hlt]

/-- One nonpositive-total step of the day loop, for concrete evaluation. -/
theorem backfillGo_step_skip_pos (df : List Row) (next fuel : ℕ) (session : Money)
    (idv : ℕ) (lastRow : Row)
    (hdup : ¬(hasInterestOn df next = true))
    (hpast : (pastRows df next).getLast? = some lastRow)
    (hpos : ¬(lastRow.total + session > 0)) :
    backfillGo df next (fuel+1) session idv =
      backfillGo df (next+1) fuel session idv := by
  rw [backfillGo, if_neg hdup, hpast]
  dsimp only
  rw [if_neg hpos]

theorem backfillGo_zero (df : List Row) (next : ℕ) (session : Money) (idv : ℕ) :
    backfillGo df next 0 session idv = [] := rfl

/-- One qualifying step of the mirror predicate, for concrete evaluation. -/
theorem allQualify_step (df : List Row) (next fuel : ℕ) (session : Money)
    (lastRow : Row) (net : Money)
    (hdup : ¬(hasInterestOn df next = true))
    (hpast : (pastRows df next).getLast? = some lastRow)
    (hpos : lastRow.total + session > 0)
    (hnet : netInterest (lastRow.total + session) = net)
    (hge : net ≥ 1/100) :
    allQualify df next (fuel+1) session = allQualify df (next+1) fuel (session + net) := by
  rw [allQualify, if_neg hdup, hpast]
  dsimp only
  rw [if_pos hpos, hnet, if_pos hge]

theorem allQualify_zero (df : List Row) (next : ℕ) (session : Money) :
    allQualify df next 0 session = true := rfl

/-- On a non-empty table, `get_last_balances` returns the balances of a row
that every row of the table precedes under the ascending `(date, id)`
ordering. -/
theorem getLastBalancesSB_spec (tbl : List Row) (hne : tbl ≠ []) :
    ∃ r ∈ tbl, getLastBalancesSB tbl = (r.ej_balance, r.ej_neng_balance) ∧
      ∀ s ∈ tbl, keyLE s r := by
  unfold getLastBalancesSB
  have hperm := List.perm_insertionSort keyGE tbl
  have hsorted := List.sorted_insertionSort keyGE tbl
  cases hl : List.insertionSort keyGE tbl with
  | nil =>
    rw [hl] at hperm
    exact absurd hperm.symm.eq_nil hne
  | cons r rest =>
    rw [hl] at hperm hsorted
    refine ⟨r, hperm.subset (List.mem_cons_self r rest), rfl, fun s hs => ?_⟩
    rcases List.mem_cons.mp (hperm.symm.subset hs) with he | hm
    · subst he
      exact IsRefl.refl (r := keyLE) s
    · exact List.rel_of_sorted_cons hsorted s hm

/-! ## Claims -/

/-- C4: for every positive balance, the daily gross interest equals
`balance * 0.0325 / 365` when the balance is at most 1,000,000 (the exact
boundary value uses only the 3.25% tier) and splits across the 3.25% and
3.75% tiers above it; the net credited amount is the gross times 0.8 (20%
withholding tax), rounded to two decimals exactly once, after tax.  The
spec's example: balance 2,000,000 gives gross 70000/365 = 191.78082... and
net 153.42. -/
theorem c4_tiered_interest_formula (b : Money) (_hb : 0 < b) :
    (b ≤ 1000000 → dailyGross b = (b * (325/10000)) / 365) ∧
    (1000000 < b →
      dailyGross b = ((1000000 : Money) * (325/10000)) / 365 +
        ((b - 1000000) * (375/10000)) / 365) ∧
    netInterest b = round2 (dailyGross b * (8/10)) ∧
    dailyGross 1000000 = ((1000000 : Money) * (325/10000)) / 365 ∧
    dailyGross 2000000 = 70000/365 ∧
    netInterest 2000000 = 15342/100 := by
  refine ⟨fun h => by rw [dailyGross, if_pos h],
          fun h => by rw [dailyGross, if_neg (not_le.mpr h)],
          ?_, by norm_num [dailyGross], by norm_num [dailyGross],
          by norm_num [netInterest, dailyGross, round2]⟩
  unfold netInterest
  dsimp only
  have harg : dailyGross b - dailyGross b * (20/100) = dailyGross b * (8/10) := by ring
  rw [harg]

/-- C4 witness at balance 2,000,000. -/
theorem c4_tiered_interest_formula_witness :
    (0 : Money) < 2000000 ∧
    (((2000000 : Money) ≤ 1000000 → dailyGross 2000000 = ((2000000 : Money) * (325/10000)) / 365) ∧
     ((1000000 : Money) < 2000000 →
       dailyGross 2000000 = ((1000000 : Money) * (325/10000)) / 365 +
         (((2000000 : Money) - 1000000) * (375/10000)) / 365) ∧
     netInterest 2000000 = round2 (dailyGross 2000000 * (8/10)) ∧
     dailyGross 1000000 = ((1000000 : Money) * (325/10000)) / 365 ∧
     dailyGross 2000000 = 70000/365 ∧
     netInterest 2000000 = 15342/100) :=
  ⟨by norm_num, c4_tiered_interest_formula 2000000 (by norm_num)⟩

/-- C6 counterexample: `update_entry` maps a caller-supplied `"EJ Balance"`
field straight into its write payload — the filter
`if k in self.col_map` keeps the derived balance columns, so the claim that
this path does not let a caller set them is false. -/
theorem c6_counterexample :
    updateEntryPayload [("EJ Balance", (999 : Money))] =
      [("ej_balance", (999 : Money))] := rfl

/-- C6 (amended): the `update_entry` payload holds exactly the provided
fields whose keys are known columns, mapped to their storage names — the
derived balance fields included when the caller supplies them (nothing blocks
them on this path; the subsequent recalculation owns repairing drift) — and a
recalculation call follows the write exactly when the `recalculate` flag is
true (the flag's in-repo `False` caller is the missing-time backfill). -/
theorem c6_update_entry_payload {α : Type} (data : List (String × α))
    (k : String) (v : α) (rc : Bool) :
    ((k, v) ∈ updateEntryPayload data ↔
      ∃ k₀, (k₀, v) ∈ data ∧ colMap k₀ = some k) ∧
    (StorageCall.recalc ∈ updateEntryCalls data rc ↔ rc = true) := by
  constructor
  · unfold updateEntryPayload
    rw [List.mem_filterMap]
    constructor
    · rintro ⟨⟨k₀, v₀⟩, hmem, hmap⟩
      rcases hk : colMap k₀ with _ | k₁
      · rw [hk] at hmap
        simp at hmap
      · rw [hk] at hmap
        simp only [Option.map_some', Option.some_inj, Prod.mk.injEq] at hmap
        obtain ⟨hk1, hv⟩ := hmap
        exact ⟨k₀, by rwa [hv] at hmem, by rw [hk, hk1]⟩
    · rintro ⟨k₀, hmem, hmap⟩
      exact ⟨(k₀, v), hmem, by rw [hmap]; rfl⟩
  · unfold updateEntryCalls
    cases rc <;> simp

/-- C8 counterexample: with a back-dated row inserted later,
`get_all_transactions` returns id order, which is not `(date, id)` order. -/
theorem c8_counterexample :
    getAllTransactionsSB c8CexTbl = c8CexTbl ∧
      ¬ List.Sorted keyLE (getAllTransactionsSB c8CexTbl) := by
  refine ⟨rfl, ?_⟩
  decide

/-- C8 (amended): `get_all_transactions` returns the full row set ordered by
`id` ascending (the insertion sequence) alone; the fetch does not consult the
date column. -/
theorem c8_get_all_transactions_order (tbl : List Row) :
    List.Sorted idLE (getAllTransactionsSB tbl) ∧
      List.Perm (getAllTransactionsSB tbl) tbl :=
  ⟨List.sorted_insertionSort idLE tbl, List.perm_insertionSort idLE tbl⟩

/-- C9 counterexample: the single-day variant
`FinanceTracker.check_maribank_interest` has no exception handler — when
today's interest is not yet logged and `get_last_balances` raises, the
accrual invocation raises. -/
theorem c9_counterexample :
    trackerCheckE c9ErrResponses = Except.error StoreErr.unavailable := rfl

/-- C9 (amended): the web-layer accrual (`app.py check_maribank_interest`)
wraps its whole body in `try`/`except`, so no store failure propagates out of
it — it always returns normally; the `FinanceTracker` single-day variant has
no handler and propagates errors raised by `get_last_balances` or
`add_entry` (see counterexample). -/
theorem c9_app_accrual_never_raises (o : StoreResponses) (today : ℕ) :
    (appCheckE o today).isOk = true := by
  unfold appCheckE
  cases appCheckRawE o today <;> rfl

/-- C10: `recalculate_balances` emits a write for a row exactly when the
stored `ej_balance` or the stored `ej_neng_balance` differs from its
recomputed prefix value by more than 0.01; the stored `total` is not part of
the comparison, so a row whose stored total is arbitrarily wrong while both
balances are within tolerance receives no corrective write (final two
conjuncts exhibit this on `c1BadRow`). -/
theorem c10_write_condition (tbl : List Row)
    (hnd : (tbl.map (fun r => r.id)).Nodup) (i : ℕ) (row : Row)
    (hrow : (sortByDateId tbl)[i]? = some row) :
    (((recalcUpdates tbl).find? (fun u => u.id == row.id)).isSome = true ↔
      (|row.ej_balance - sumDeltaA ((sortByDateId tbl).take (i+1))| > 1/100 ∨
       |row.ej_neng_balance - sumDeltaB ((sortByDateId tbl).take (i+1))| > 1/100)) ∧
    recalcUpdates [c1BadRow] = [] ∧
    |c1BadRow.total - (c1BadRow.ej_balance + c1BadRow.ej_neng_balance)| > 1/100 := by
  obtain ⟨hi, hget⟩ := List.getElem?_eq_some.mp hrow
  have hnd' : ((sortByDateId tbl).map (fun r => r.id)).Nodup :=
    (((List.perm_insertionSort keyLE tbl).map (fun r => r.id)).nodup_iff).mpr hnd
  refine ⟨?_, ?_, ?_⟩
  · subst hget
    rw [recalcUpdates, recalcAux_find?_spec (sortByDateId tbl) hnd' 0 0 i hi]
    simp only [zero_add]
    by_cases hcond : |(sortByDateId tbl)[i].ej_balance -
        sumDeltaA ((sortByDateId tbl).take (i+1))| > 1/100 ∨
        |(sortByDateId tbl)[i].ej_neng_balance -
          sumDeltaB ((sortByDateId tbl).take (i+1))| > 1/100
    · rw [if_pos hcond]
      simpa using hcond
    · rw [if_neg hcond]
      simpa using hcond
  · show recalcAux 0 0 (sortByDateId [c1BadRow]) = []
    have hs : sortByDateId [c1BadRow] = [c1BadRow] := rfl
    rw [hs, recalcAux]
    rw [if_neg ?_, recalcAux]
    norm_num [c1BadRow, mkRow]
  · show |(100 : Money) - (0 + 0)| > 1/100
    rw [show (100 : Money) - (0 + 0) = 100 by norm_num,
      abs_of_pos (by norm_num : (0 : Money) < 100)]
    norm_num

/-- C10 witness on the two-row consistent ledger, index 0. -/
theorem c10_write_condition_witness :
    ((c1WitnessTbl.map (fun r => r.id)).Nodup ∧
      (sortByDateId c1WitnessTbl)[0]? = some (mkRow 0 5 "Seed" 10 0 0 0 10 0 10)) ∧
    ((((recalcUpdates c1WitnessTbl).find?
        (fun u => u.id == (mkRow 0 5 "Seed" 10 0 0 0 10 0 10).id)).isSome = true ↔
      (|(mkRow 0 5 "Seed" 10 0 0 0 10 0 10).ej_balance -
          sumDeltaA ((sortByDateId c1WitnessTbl).take 1)| > 1/100 ∨
       |(mkRow 0 5 "Seed" 10 0 0 0 10 0 10).ej_neng_balance -
          sumDeltaB ((sortByDateId c1WitnessTbl).take 1)| > 1/100)) ∧
     recalcUpdates [c1BadRow] = [] ∧
     |c1BadRow.total - (c1BadRow.ej_balance + c1BadRow.ej_neng_balance)| > 1/100) :=
  ⟨⟨by decide, rfl⟩,
   c10_write_condition c1WitnessTbl (by decide) 0
     (mkRow 0 5 "Seed" 10 0 0 0 10 0 10) rfl⟩

/-- C1 counterexample: on the one-row table `c1BadRow` (consistent balances,
stored total 100) the pass writes nothing, so after recalculation the stored
total still differs from `balance_a + balance_b` by 100, far beyond the 0.01
tolerance the claim asserts. -/
theorem c1_counterexample :
    recalcPostOrdered [c1BadRow] = [c1BadRow] ∧
    |c1BadRow.total - (c1BadRow.ej_balance + c1BadRow.ej_neng_balance)| > 1/100 := by
  constructor
  · unfold recalcPostOrdered
    have hs : sortByDateId [c1BadRow] = [c1BadRow] := rfl
    rw [hs]
    have hupd : recalcAux 0 0 [c1BadRow] = [] := by
      rw [recalcAux]
      rw [if_neg ?_, recalcAux]
      norm_num [c1BadRow, mkRow]
    rw [hupd]
    rfl
  · show |(100 : Money) - (0 + 0)| > 1/100
    rw [show (100 : Money) - (0 + 0) = 100 by norm_num,
      abs_of_pos (by norm_num : (0 : Money) < 100)]
    norm_num

/-- C1 (amended): after `recalculate_balances`, every row in `(date, id)`
ascending order carries balances within 0.01 of the prefix sums of its
deltas (rows that drifted farther were rewritten to the exact prefix sums),
and every row the pass writes gets `total` exactly equal to the sum of the
two written balances; a row the pass does not write keeps its stored total,
which the pass never checks (see counterexample). -/
theorem c1_recalculation_correct (tbl : List Row)
    (hnd : (tbl.map (fun r => r.id)).Nodup) (i : ℕ) (row : Row)
    (hrow : (recalcPostOrdered tbl)[i]? = some row) :
    |row.ej_balance - sumDeltaA ((sortByDateId tbl).take (i+1))| ≤ 1/100 ∧
    |row.ej_neng_balance - sumDeltaB ((sortByDateId tbl).take (i+1))| ≤ 1/100 ∧
    ∀ u ∈ recalcUpdates tbl, u.total = u.ej_balance + u.ej_neng_balance := by
  have hnd' : ((sortByDateId tbl).map (fun r => r.id)).Nodup :=
    (((List.perm_insertionSort keyLE tbl).map (fun r => r.id)).nodup_iff).mpr hnd
  unfold recalcPostOrdered at hrow
  have hi : i < (sortByDateId tbl).length := by
    have hlen := (List.getElem?_eq_some.mp hrow).1
    simpa [applyUpdates] using hlen
  have hbal := recalcAux_post_balances (sortByDateId tbl) hnd' 0 0 i hi row hrow
  simp only [zero_add] at hbal
  exact ⟨hbal.1, hbal.2, fun u hu =>
    recalcAux_total_eq (sortByDateId tbl) 0 0 u (by simpa [recalcUpdates] using hu)⟩

/-- C1 witness on the two-row consistent ledger, index 1. -/
theorem c1_recalculation_correct_witness :
    ((c1WitnessTbl.map (fun r => r.id)).Nodup ∧
      (recalcPostOrdered c1WitnessTbl)[1]? =
        some (mkRow 1 6 "Deposit" 0 0 5 0 10 5 15)) ∧
    (|(mkRow 1 6 "Deposit" 0 0 5 0 10 5 15).ej_balance -
        sumDeltaA ((sortByDateId c1WitnessTbl).take 2)| ≤ 1/100 ∧
     |(mkRow 1 6 "Deposit" 0 0 5 0 10 5 15).ej_neng_balance -
        sumDeltaB ((sortByDateId c1WitnessTbl).take 2)| ≤ 1/100 ∧
     ∀ u ∈ recalcUpdates c1WitnessTbl, u.total = u.ej_balance + u.ej_neng_balance) :=
  ⟨⟨by decide, by
      unfold recalcPostOrdered
      have hs : sortByDateId c1WitnessTbl = c1WitnessTbl := rfl
      have hupd : recalcAux 0 0 c1WitnessTbl = [] := by
        norm_num [c1WitnessTbl, mkRow, recalcAux]
      rw [hs, hupd]
      rfl⟩,
   c1_recalculation_correct c1WitnessTbl (by decide) 1
     (mkRow 1 6 "Deposit" 0 0 5 0 10 5 15) (by
      unfold recalcPostOrdered
      have hs : sortByDateId c1WitnessTbl = c1WitnessTbl := rfl
      have hupd : recalcAux 0 0 c1WitnessTbl = [] := by
        norm_num [c1WitnessTbl, mkRow, recalcAux]
      rw [hs, hupd]
      rfl)⟩

/-- C7 counterexample: `CSVStorage.get_last_balances` on a file whose last
appended row is dated before an earlier-appended row returns the appended
row's balances `(2, 2)`, not the `(1, 1)` of the `(date, id)`-maximal row. -/
theorem c7_counterexample :
    getLastBalancesCSV c7CexTbl = (2, 2) ∧
    c7MaxRow ∈ c7CexTbl ∧ (∀ s ∈ c7CexTbl, keyLE s c7MaxRow) ∧
    (c7MaxRow.ej_balance, c7MaxRow.ej_neng_balance) = (1, 1) ∧
    ((2 : Money), (2 : Money)) ≠ ((1 : Money), (1 : Money)) := by
  refine ⟨rfl, ?_, by decide, rfl, ?_⟩
  · unfold c7CexTbl c7MaxRow
    exact List.mem_cons_self _ _
  · simp only [ne_eq, Prod.mk.injEq, not_and]
    norm_num

/-- C7 (amended): both implementations return `(0, 0)` on an empty store;
`SupabaseStorage.get_last_balances` returns the balances of the row that is
maximal under the ascending `(date, id)` ordering, while
`CSVStorage.get_last_balances` returns the balances of the most recently
appended row, which coincides with the former only when appends arrive in
date order (see counterexample). -/
theorem c7_get_last_balances (tbl : List Row) (hne : tbl ≠ []) :
    (∃ r ∈ tbl, getLastBalancesSB tbl = (r.ej_balance, r.ej_neng_balance) ∧
        ∀ s ∈ tbl, keyLE s r) ∧
    getLastBalancesSB ([] : List Row) = (0, 0) ∧
    getLastBalancesCSV ([] : List Row) = (0, 0) ∧
    ∀ (l : List Row) (r : Row),
      getLastBalancesCSV (l ++ [r]) = (r.ej_balance, r.ej_neng_balance) := by
  refine ⟨getLastBalancesSB_spec tbl hne, rfl, rfl, fun l r => ?_⟩
  unfold getLastBalancesCSV
  rw [List.getLast?_concat]

/-- C7 witness on the two-row consistent ledger. -/
theorem c7_get_last_balances_witness :
    c1WitnessTbl ≠ [] ∧
    ((∃ r ∈ c1WitnessTbl,
        getLastBalancesSB c1WitnessTbl = (r.ej_balance, r.ej_neng_balance) ∧
        ∀ s ∈ c1WitnessTbl, keyLE s r) ∧
     getLastBalancesSB ([] : List Row) = (0, 0) ∧
     getLastBalancesCSV ([] : List Row) = (0, 0) ∧
     ∀ (l : List Row) (r : Row),
       getLastBalancesCSV (l ++ [r]) = (r.ej_balance, r.ej_neng_balance)) :=
  ⟨by simp [c1WitnessTbl], c7_get_last_balances c1WitnessTbl (by simp [c1WitnessTbl])⟩

/-- C5: an interest row is created for an accrual day exactly when the
running total for that day is strictly positive and the rounded net interest
reaches one centavo — stated for the day a backfill step processes and for
the single-day variant (whose guard also requires today's row to be absent).
The instances: at balance 730/13 the pre-rounding net is exactly 0.004,
rounding to 0.00, and no row is created; at 1825/13 the net is exactly 0.01
and a row is created; a backfill over days 6 and 7 of `c5SkipDf` skips the
nonpositive day 6 and still accrues day 7. -/
theorem c5_accrual_threshold (df : List Row) (next fuel : ℕ) (session : Money)
    (idv : ℕ) (lastRow : Row) (hdup : hasInterestOn df next = false)
    (hpast : (pastRows df next).getLast? = some lastRow) :
    ((∃ r ∈ backfillGo df next (fuel+1) session idv, r.date = next) ↔
      (0 < lastRow.total + session ∧ 1/100 ≤ netInterest (lastRow.total + session))) ∧
    (∀ (tbl : List Row) (today : ℕ),
      (trackerInterestEntry tbl today).isSome = true ↔
        (checkEntryExists tbl today "Maribank Interest" = false ∧
         0 < trackerTotal tbl ∧ 1/100 ≤ netInterest (trackerTotal tbl))) ∧
    netInterest (730/13) = 0 ∧
    netInterest (1825/13) = 1/100 ∧
    trackerInterestEntry c5LowTbl 6 = none ∧
    (trackerInterestEntry c5HighTbl 6).isSome = true ∧
    (backfillGo c5SkipDf 6 2 0 2).map (fun r => (r.date, r.incoming_ej_neng)) =
      [(7, 7/100)] := by
  refine ⟨backfillGo_day_iff df next fuel session idv lastRow hdup hpast,
          ?_, by norm_num [netInterest, dailyGross, round2],
          by norm_num [netInterest, dailyGross, round2], ?_, ?_, ?_⟩
  · intro tbl today
    unfold trackerInterestEntry
    by_cases h1 : checkEntryExists tbl today "Maribank Interest" = true
    · rw [if_pos h1]
      constructor
      · intro hcontr
        simp at hcontr
      · rintro ⟨h1f, -, -⟩
        rw [h1] at h1f
        exact absurd h1f (by simp)
    · have h1f : checkEntryExists tbl today "Maribank Interest" = false := by
        simpa using h1
      rw [if_neg h1]
      dsimp only
      by_cases h2 : trackerTotal tbl > 0
      · rw [if_pos h2]
        by_cases h3 : netInterest (trackerTotal tbl) ≥ 1/100
        · rw [if_pos h3]
          exact ⟨fun _ => ⟨h1f, h2, h3⟩, fun _ => rfl⟩
        · rw [if_neg h3]
          constructor
          · intro hcontr
            simp at hcontr
          · rintro ⟨-, -, hnet⟩
            exact absurd hnet h3
      · rw [if_neg h2]
        constructor
        · intro hcontr
          simp at hcontr
        · rintro ⟨-, h2a, -⟩
          exact absurd h2a h2
  · have hch : checkEntryExists c5LowTbl 6 "Maribank Interest" = true → False := by decide
    have htot : trackerTotal c5LowTbl = 730/13 := by
      norm_num [trackerTotal, getLastBalancesSB, c5LowTbl, mkRow,
        List.insertionSort, List.orderedInsert]
    have hn : netInterest ((730 : Money)/13) = 0 := by
      norm_num [netInterest, dailyGross, round2]
    unfold trackerInterestEntry
    rw [if_neg hch]
    dsimp only
    rw [htot, hn]
    rw [if_pos (by norm_num : (730 : Money)/13 > 0)]
    rw [if_neg (by norm_num : ¬((0 : Money) ≥ 1/100))]
  · have hch : checkEntryExists c5HighTbl 6 "Maribank Interest" = true → False := by decide
    have htot : trackerTotal c5HighTbl = 1825/13 := by
      norm_num [trackerTotal, getLastBalancesSB, c5HighTbl, mkRow,
        List.insertionSort, List.orderedInsert]
    have hn : netInterest ((1825 : Money)/13) = 1/100 := by
      norm_num [netInterest, dailyGross, round2]
    unfold trackerInterestEntry
    rw [if_neg hch]
    dsimp only
    rw [htot, hn]
    rw [if_pos (by norm_num : (1825 : Money)/13 > 0)]
    rw [if_pos (by norm_num : (1 : Money)/100 ≥ 1/100)]
    rfl
  · have hpast6 : (pastRows c5SkipDf 6).getLast? =
        some (mkRow 0 5 "Down" 0 5 0 0 0 0 (-5)) := rfl
    have hpast7 : (pastRows c5SkipDf 7).getLast? =
        some (mkRow 1 6 "Up" 1005 0 0 0 1000 0 1000) := rfl
    have step1 : backfillGo c5SkipDf 6 2 0 2 = backfillGo c5SkipDf 7 1 0 2 := by
      show backfillGo c5SkipDf 6 (1+1) 0 2 = _
      rw [backfillGo]
      rw [if_neg (by decide : ¬(hasInterestOn c5SkipDf 6 = true))]
      rw [hpast6]
      dsimp only
      rw [if_neg (by norm_num [mkRow] :
        ¬((mkRow 0 5 "Down" 0 5 0 0 0 0 (-5)).total + (0 : Money) > 0))]
    have hn : netInterest ((mkRow 1 6 "Up" 1005 0 0 0 1000 0 1000).total + (0 : Money)) =
        7/100 := by
      norm_num [mkRow, netInterest, dailyGross, round2]
    have step2 : backfillGo c5SkipDf 7 1 0 2 = [mkInterestRow 2 7 (7/100)] := by
      show backfillGo c5SkipDf 7 (0+1) 0 2 = _
      rw [backfillGo]
      rw [if_neg (by decide : ¬(hasInterestOn c5SkipDf 7 = true))]
      rw [hpast7]
      dsimp only
      rw [if_pos (by norm_num [mkRow] :
        (mkRow 1 6 "Up" 1005 0 0 0 1000 0 1000).total + (0 : Money) > 0)]
      rw [hn]
      rw [if_pos (by norm_num : (7 : Money)/100 ≥ 1/100)]
      rw [backfillGo]
    rw [step1, step2]
    simp [mkInterestRow]

/-- C5 witness: the day-7 step of `c5SkipDf` as the concrete backfill day. -/
theorem c5_accrual_threshold_witness :
    (hasInterestOn c5SkipDf 7 = false ∧
     (pastRows c5SkipDf 7).getLast? = some (mkRow 1 6 "Up" 1005 0 0 0 1000 0 1000)) ∧
    (((∃ r ∈ backfillGo c5SkipDf 7 (0+1) 0 2, r.date = 7) ↔
       (0 < (mkRow 1 6 "Up" 1005 0 0 0 1000 0 1000).total + 0 ∧
        1/100 ≤ netInterest ((mkRow 1 6 "Up" 1005 0 0 0 1000 0 1000).total + 0))) ∧
     (∀ (tbl : List Row) (today : ℕ),
       (trackerInterestEntry tbl today).isSome = true ↔
         (checkEntryExists tbl today "Maribank Interest" = false ∧
          0 < trackerTotal tbl ∧ 1/100 ≤ netInterest (trackerTotal tbl))) ∧
     netInterest (730/13) = 0 ∧
     netInterest (1825/13) = 1/100 ∧
     trackerInterestEntry c5LowTbl 6 = none ∧
     (trackerInterestEntry c5HighTbl 6).isSome = true ∧
     (backfillGo c5SkipDf 6 2 0 2).map (fun r => (r.date, r.incoming_ej_neng)) =
       [(7, 7/100)]) :=
  ⟨⟨by decide, rfl⟩,
   c5_accrual_threshold c5SkipDf 7 0 0 2 (mkRow 1 6 "Up" 1005 0 0 0 1000 0 1000)
     (by decide) rfl⟩

/-- C2 counterexample: on `c2CexTbl` the last interest row is dated
`11 - 1 = 10` and the running total is positive (namely 1) throughout the
one-day gap, yet the invocation for today = 11 creates no row and issues no
recalculation call, because the centavo threshold suppresses the entry —
positivity of the total alone does not produce `k` rows. -/
theorem c2_counterexample :
    maxInterestDate (sortByDateId c2CexTbl) = some 10 ∧
    (pastRows (sortByDateId c2CexTbl) 11).getLast? =
      some (mkRow 1 10 "Maribank Interest" 0 0 0 0 1 0 1) ∧
    (0 : Money) < (mkRow 1 10 "Maribank Interest" 0 0 0 0 1 0 1).total ∧
    appBackfillAdded c2CexTbl 11 = [] ∧
    appBackfillRecalcCount c2CexTbl 11 = 0 := by
  have hadd : appBackfillAdded c2CexTbl 11 = [] := by
    unfold appBackfillAdded
    rw [if_neg (by decide : ¬(c2CexTbl.isEmpty = true))]
    dsimp only
    rw [show maxInterestDate (sortByDateId c2CexTbl) = some 10 from by decide]
    dsimp only
    show backfillGo (sortByDateId c2CexTbl) 11 (0+1) 0 (nextId c2CexTbl) = []
    rw [backfillGo_step_skip_net (sortByDateId c2CexTbl) 11 0 0 (nextId c2CexTbl)
      (mkRow 1 10 "Maribank Interest" 0 0 0 0 1 0 1) (by decide) rfl
      (by norm_num [mkRow])
      (by norm_num [mkRow, netInterest, dailyGross, round2])]
    exact backfillGo_zero _ _ _ _
  refine ⟨by decide, rfl, by norm_num [mkRow], hadd, ?_⟩
  unfold appBackfillRecalcCount
  rw [hadd]
  rfl

/-- C2 (amended): with the last interest row dated `k ≥ 1` days before
`today` and every gap day passing both accrual guards — a strictly positive
running total and a net interest of at least one centavo (positivity alone
does not suffice, see the counterexample) — one backfill invocation adds
exactly `k` interest rows, one per missing date with dates strictly
increasing by one day, each inserted with `recalculate=false`, and issues
exactly one recalculation call at the end. -/
theorem c2_backfill_gap_filling (tbl : List Row) (today k : ℕ)
    (hne : tbl ≠ []) (hk : 1 ≤ k) (hkt : k ≤ today)
    (hmax : maxInterestDate (sortByDateId tbl) = some (today - k))
    (hq : allQualify (sortByDateId tbl) (today - k + 1) k 0 = true) :
    (appBackfillAdded tbl today).length = k ∧
    (appBackfillAdded tbl today).map (fun r => r.date) =
      List.range' (today - k + 1) k ∧
    (∀ c ∈ appBackfillAddCalls tbl today, c.2 = false) ∧
    appBackfillRecalcCount tbl today = 1 := by
  have hfuel : today - (today - k) = k := by omega
  have hadd : appBackfillAdded tbl today =
      backfillGo (sortByDateId tbl) (today - k + 1) k 0 (nextId tbl) := by
    unfold appBackfillAdded
    rw [if_neg (by simpa [List.isEmpty_iff] using hne)]
    dsimp only
    rw [hmax]
    dsimp only
    rw [hfuel]
  have hdates := backfillGo_dates_of_allQualify (sortByDateId tbl) k
    (today - k + 1) 0 (nextId tbl) hq
  have hlen : (appBackfillAdded tbl today).length = k := by
    have hmaplen := congrArg List.length hdates
    rw [List.length_map, List.length_range'] at hmaplen
    rw [hadd]
    exact hmaplen
  refine ⟨hlen, by rw [hadd, hdates], ?_, ?_⟩
  · intro c hc
    unfold appBackfillAddCalls at hc
    obtain ⟨r, -, hrc⟩ := List.mem_map.mp hc
    rw [← hrc]
  · unfold appBackfillRecalcCount
    rw [if_neg ?_]
    intro he
    rw [List.isEmpty_iff] at he
    rw [he, List.length_nil] at hlen
    omega

/-- C2 witness: `c2WitnessTbl` with today = 12 and a two-day gap. -/
theorem c2_backfill_gap_filling_witness :
    (c2WitnessTbl ≠ [] ∧ 1 ≤ 2 ∧ 2 ≤ 12 ∧
     maxInterestDate (sortByDateId c2WitnessTbl) = some (12 - 2) ∧
     allQualify (sortByDateId c2WitnessTbl) (12 - 2 + 1) 2 0 = true) ∧
    ((appBackfillAdded c2WitnessTbl 12).length = 2 ∧
     (appBackfillAdded c2WitnessTbl 12).map (fun r => r.date) =
       List.range' (12 - 2 + 1) 2 ∧
     (∀ c ∈ appBackfillAddCalls c2WitnessTbl 12, c.2 = false) ∧
     appBackfillRecalcCount c2WitnessTbl 12 = 1) :=
  have hq : allQualify (sortByDateId c2WitnessTbl) (12 - 2 + 1) 2 0 = true := by
    show allQualify (sortByDateId c2WitnessTbl) 11 (1+1) 0 = true
    rw [allQualify_step (sortByDateId c2WitnessTbl) 11 1 0
      (mkRow 1 10 "Maribank Interest" 0 0 0 0 1000 0 1000) (7/100)
      (by decide) rfl (by norm_num [mkRow])
      (by norm_num [mkRow, netInterest, dailyGross, round2])
      (by norm_num)]
    show allQualify (sortByDateId c2WitnessTbl) 12 (0+1) (0 + 7/100) = true
    rw [allQualify_step (sortByDateId c2WitnessTbl) 12 0 (0 + 7/100)
      (mkRow 1 10 "Maribank Interest" 0 0 0 0 1000 0 1000) (7/100)
      (by decide) rfl (by norm_num [mkRow])
      (by norm_num [mkRow, netInterest, dailyGross, round2])
      (by norm_num)]
    exact allQualify_zero _ _ _
  ⟨⟨by simp [c2WitnessTbl], by norm_num, by norm_num, by decide, hq⟩,
   c2_backfill_gap_filling c2WitnessTbl 12 2 (by simp [c2WitnessTbl])
     (by norm_num) (by norm_num) (by decide) hq⟩

/-- C3 counterexample: the first backfill invocation on `c3CexTbl` for
today = 12 adds one row (day 10) and skips days 11 and 12 because the stale
stored total of the day-10 row reads as 0; the closing recalculation then
repairs that total to 1500, so a second invocation for the same today = 12
adds two further rows — not zero. -/
theorem c3_counterexample :
    (appBackfillAdded c3CexTbl 12).length = 1 ∧
    (appBackfillAdded (appBackfillPost c3CexTbl 12) 12).length = 2 := by
  have hadd1 : appBackfillAdded c3CexTbl 12 = [mkInterestRow 3 10 (7/100)] := by
    unfold appBackfillAdded
    rw [if_neg (by decide : ¬(c3CexTbl.isEmpty = true))]
    dsimp only
    rw [show maxInterestDate (sortByDateId c3CexTbl) = some 9 from by decide]
    dsimp only
    rw [show nextId c3CexTbl = 3 from by decide]
    show backfillGo (sortByDateId c3CexTbl) 10 (2+1) 0 3 = _
    rw [backfillGo_step_add (sortByDateId c3CexTbl) 10 2 0 3
      (mkRow 1 9 "Maribank Interest" 0 0 0 0 1000 0 1000) (7/100)
      (by decide) rfl (by norm_num [mkRow])
      (by norm_num [mkRow, netInterest, dailyGross, round2]) (by norm_num)]
    show mkInterestRow 3 10 (7/100) ::
      backfillGo (sortByDateId c3CexTbl) 11 (1+1) (0 + 7/100) 4 = _
    rw [backfillGo_step_skip_net (sortByDateId c3CexTbl) 11 1 (0 + 7/100) 4
      (mkRow 2 10 "Topup" 500 0 0 0 0 0 0)
      (by decide) rfl (by norm_num [mkRow])
      (by norm_num [mkRow, netInterest, dailyGross, round2])]
    show mkInterestRow 3 10 (7/100) ::
      backfillGo (sortByDateId c3CexTbl) 12 (0+1) (0 + 7/100) 4 = _
    rw [backfillGo_step_skip_net (sortByDateId c3CexTbl) 12 0 (0 + 7/100) 4
      (mkRow 2 10 "Topup" 500 0 0 0 0 0 0)
      (by decide) rfl (by norm_num [mkRow])
      (by norm_num [mkRow, netInterest, dailyGross, round2])]
    rw [backfillGo_zero]
  have hupds : recalcUpdates (c3CexTbl ++ [mkInterestRow 3 10 (7/100)]) =
      [⟨2, 1500, 0, 1500⟩, ⟨3, 1500, 7/100, 1500 + 7/100⟩] := by
    unfold recalcUpdates
    rw [show sortByDateId (c3CexTbl ++ [mkInterestRow 3 10 (7/100)]) =
        c3CexTbl ++ [mkInterestRow 3 10 (7/100)] from rfl]
    norm_num [c3CexTbl, mkRow, mkInterestRow, recalcAux]
  have hpost : appBackfillPost c3CexTbl 12 = c3PostTbl := by
    unfold appBackfillPost
    dsimp only
    rw [hadd1]
    rw [if_neg (by decide : ¬(([mkInterestRow 3 10 (7/100)] : List Row).isEmpty = true))]
    unfold recalcPost
    rw [hupds]
    rfl
  have hadd2 : appBackfillAdded c3PostTbl 12 =
      [mkInterestRow 4 11 (11/100), mkInterestRow 5 12 (11/100)] := by
    unfold appBackfillAdded
    rw [if_neg (by decide : ¬(c3PostTbl.isEmpty = true))]
    dsimp only
    rw [show maxInterestDate (sortByDateId c3PostTbl) = some 10 from by decide]
    dsimp only
    rw [show nextId c3PostTbl = 4 from by decide]
    show backfillGo (sortByDateId c3PostTbl) 11 (1+1) 0 4 = _
    rw [backfillGo_step_add (sortByDateId c3PostTbl) 11 1 0 4
      (mkRow 3 10 "Maribank Interest" 0 0 (7/100) 0 1500 (7/100) (1500 + 7/100))
      (11/100)
      (by decide) rfl (by norm_num [mkRow])
      (by norm_num [mkRow, netInterest, dailyGross, round2]) (by norm_num)]
    show mkInterestRow 4 11 (11/100) ::
      backfillGo (sortByDateId c3PostTbl) 12 (0+1) (0 + 11/100) 5 = _
    rw [backfillGo_step_add (sortByDateId c3PostTbl) 12 0 (0 + 11/100) 5
      (mkRow 3 10 "Maribank Interest" 0 0 (7/100) 0 1500 (7/100) (1500 + 7/100))
      (11/100)
      (by decide) rfl (by norm_num [mkRow])
      (by norm_num [mkRow, netInterest, dailyGross, round2]) (by norm_num)]
    rw [backfillGo_zero]
  refine ⟨by rw [hadd1]; rfl, ?_⟩
  rw [hpost, hadd2]
  rfl

/-- C3 (amended): duplicate prevention holds unconditionally — a second
single-day invocation for the same today adds nothing, and both accrual
variants preserve at-most-one-interest-row-per-date (they never insert on a
date that already carries an interest row, and one backfill pass uses
strictly increasing dates); but the backfill's own second invocation can add
entries for previously skipped days once the first invocation's
recalculation has repaired stale stored totals (see counterexample), so
"the second call adds zero entries" holds for the single-day variant and
for the backfill only on recalculated states. -/
theorem c3_accrual_idempotence (tbl : List Row) (today : ℕ)
    (h : atMostOnePerDate tbl) :
    trackerInterestEntry (trackerPost tbl today) today = none ∧
    atMostOnePerDate (trackerPost tbl today) ∧
    atMostOnePerDate (appBackfillPost tbl today) :=
  ⟨trackerInterestEntry_post_none tbl today,
   atMostOnePerDate_trackerPost tbl today h,
   atMostOnePerDate_appBackfillPost tbl today h⟩

/-- C3 witness on the one-row ledger with today = 6. -/
theorem c3_accrual_idempotence_witness :
    atMostOnePerDate c3WitnessTbl ∧
    (trackerInterestEntry (trackerPost c3WitnessTbl 6) 6 = none ∧
     atMostOnePerDate (trackerPost c3WitnessTbl 6) ∧
     atMostOnePerDate (appBackfillPost c3WitnessTbl 6)) :=
  ⟨by decide, c3_accrual_idempotence c3WitnessTbl 6 (by decide)⟩

end Finance
